import Mathlib

/-
Verification of a cooperative counting semaphore (a clone of the Python
asyncio.Semaphore, written in TypeScript, file src/index.ts).

The semaphore owns an integer counter of available permits and an ordered
queue of pending wake callbacks.  Each suspended acquirer is represented in
the source by the resolve callback of a fresh Promise pushed at the tail of
the waiter array; here a waiter is modelled by an opaque identifier (a Nat).

All operations of the class are synchronous except the suspension point of
acquire, so each one is embedded as a pure state transformer:
  - locked        : Semaphore -> Bool                       (query, no effect)
  - acquire       : Semaphore -> Nat -> Semaphore × Bool    (Bool = suspended)
  - release       : Semaphore -> Semaphore × Option Nat     (woken waiter, if any)
  - wakeUpNext    : Semaphore -> Semaphore × Option Nat     (private helper)
  - mkSemaphore   : Int -> Except String Semaphore          (the constructor)
The resumption of a suspended acquire performs no state change in the source
(the bookkeeping is all done by the release that wakes it), so the model
needs no separate resume step: waking is part of release.
-/

namespace TsSemaphore

/-- State of the Semaphore class: the private fields value (the permit
counter) and waiters (the ordered array of resume callbacks, identified
here by opaque Nat handles, head = earliest arrival). -/
structure Semaphore where
  value : Int
  waiters : List Nat
  deriving Repr, DecidableEq

/-- Embedding of the constructor: if the initial value is negative it throws
(Error with the given message) and no instance is produced; otherwise the
counter is the given value and the waiter array is empty. -/
def mkSemaphore (value : Int) : Except String Semaphore :=
  if value < 0 then
    Except.error "Semaphore initial value must be >= 0"
  else
    Except.ok { value := value, waiters := [] }

/-- Embedding of locked(): value === 0 || waiters.length > 0. -/
def Semaphore.locked (s : Semaphore) : Bool :=
  s.value == 0 || decide (s.waiters.length > 0)

/-- Embedding of the synchronous part of acquire(), the only part that
touches the state.  w is the fresh resume handle the call would push.  The
returned Bool records whether the caller suspended: if locked() is false the
counter is decremented and the call returns at once; otherwise the handle is
pushed at the tail of waiters and the caller suspends.  On the resumed path
acquire runs no further statement, so no further transformer is needed. -/
def Semaphore.acquire (s : Semaphore) (w : Nat) : Semaphore × Bool :=
  if !s.locked then
    ({ s with value := s.value - 1 }, false)
  else
    ({ s with waiters := s.waiters ++ [w] }, true)

/-- Embedding of the private helper wakeUpNext(): shift the head of the
waiter array; if there is none, return; otherwise decrement the counter and
invoke the shifted callback (returned here as the woken handle). -/
def Semaphore.wakeUpNext (s : Semaphore) : Semaphore × Option Nat :=
  match s.waiters with
  | [] => (s, none)
  | next :: rest => ({ value := s.value - 1, waiters := rest }, some next)

/-- Embedding of release(): increment the counter by one, then wakeUpNext. -/
def Semaphore.release (s : Semaphore) : Semaphore × Option Nat :=
  Semaphore.wakeUpNext { s with value := s.value + 1 }

/-- Embedding of run(task) executed in isolation (no interleaved operation
between its suspension points).  The wrapped task is represented by its
outcome, an Except value.  run awaits acquire; when acquire suspends the
call cannot complete in isolation and the model returns none.  On the
immediate path the body runs the task and the finally clause runs release
exactly once, on the success and on the failure path alike, and the outcome
of the task is propagated verbatim. -/
def Semaphore.run (s : Semaphore) (w : Nat) (task : Except Err A) :
    Option (Semaphore × Except Err A) :=
  let a := s.acquire w
  if a.2 then
    none
  else
    some ((a.1.release).1, task)

/-- A public operation issued on the semaphore, for reasoning about traces.
acq w is an acquire call whose fresh resume handle would be w; rel is a
release call; lck is a locked() query (it does not change the state); runf w
is a run call taken as one atomic block: when the inner acquire does not
suspend it performs acquire followed by release (the gated task itself never
touches the semaphore), and when the inner acquire suspends only the enqueue
has happened by the time control returns to the trace (the matching release
of that run is a later rel in the trace, issued when its waiter is woken). -/
inductive Op where
  | acq (w : Nat)
  | rel
  | lck
  | runf (w : Nat)
  deriving Repr, DecidableEq

/-- Effect of one operation on the semaphore state. -/
def Semaphore.applyOp (s : Semaphore) : Op → Semaphore
  | Op.acq w => (s.acquire w).1
  | Op.rel => s.release.1
  | Op.lck => s
  | Op.runf w =>
      let a := s.acquire w
      if a.2 then a.1 else (a.1.release).1

/-- Run a whole trace of operations from a state. -/
def Semaphore.execOps : Semaphore → List Op → Semaphore
  | s, [] => s
  | s, op :: rest => Semaphore.execOps (s.applyOp op) rest

/-- The state invariant of the data model: the counter is never negative,
and a non-empty waiter queue forces a zero counter. -/
def Inv (s : Semaphore) : Prop :=
  0 ≤ s.value ∧ (s.waiters ≠ [] → s.value = 0)

/-- Trace execution instrumented with grant/release counters, for the
conservation property.  granted counts acquire calls that have returned
(immediately, or by being woken); released counts release calls. -/
structure ExecC where
  sem : Semaphore
  granted : Nat
  released : Nat
  deriving Repr, DecidableEq

/-- One instrumented step.  An acquire that does not suspend is granted at
once; a release always counts, and when it wakes a waiter that waiter has
now been granted.  A non-suspending runf both grants and releases its own
acquire; a suspending runf grants nothing yet (its grant and its release
appear later in the trace, as the rel that wakes it and the rel its
continuation then issues). -/
def stepC (e : ExecC) : Op → ExecC
  | Op.acq w =>
      let a := e.sem.acquire w
      { sem := a.1
        granted := if a.2 then e.granted else e.granted + 1
        released := e.released }
  | Op.rel =>
      let r := e.sem.release
      { sem := r.1
        granted := if r.2.isSome then e.granted + 1 else e.granted
        released := e.released + 1 }
  | Op.lck => e
  | Op.runf w =>
      let a := e.sem.acquire w
      if a.2 then
        { sem := a.1, granted := e.granted, released := e.released }
      else
        { sem := (a.1.release).1
          granted := e.granted + 1
          released := e.released + 1 }

/-- Run a whole trace with counters. -/
def execC : ExecC → List Op → ExecC
  | e, [] => e
  | e, op :: rest => execC (stepC e op) rest

/-- Trace execution instrumented with the arrival order of suspended
acquirers and the order in which waiters are woken. -/
structure ExecF where
  sem : Semaphore
  arrivals : List Nat
  wakes : List Nat
  deriving Repr, DecidableEq

/-- One step with FIFO instrumentation: a suspending acquire (plain or
inside runf) records its handle at the tail of arrivals; a release that
wakes a waiter records the woken handle at the tail of wakes. -/
def stepF (e : ExecF) : Op → ExecF
  | Op.acq w =>
      let a := e.sem.acquire w
      { sem := a.1
        arrivals := if a.2 then e.arrivals ++ [w] else e.arrivals
        wakes := e.wakes }
  | Op.rel =>
      let r := e.sem.release
      { sem := r.1
        arrivals := e.arrivals
        wakes :=
          match r.2 with
          | some x => e.wakes ++ [x]
          | none => e.wakes }
  | Op.lck => e
  | Op.runf w =>
      let a := e.sem.acquire w
      if a.2 then
        { sem := a.1, arrivals := e.arrivals ++ [w], wakes := e.wakes }
      else
        { sem := (a.1.release).1, arrivals := e.arrivals, wakes := e.wakes }

/-- Run a whole trace with FIFO instrumentation. -/
def execF : ExecF → List Op → ExecF
  | e, [] => e
  | e, op :: rest => execF (stepF e op) rest

/-- The conservation invariant: counter plus grants balances the initial
count plus releases. -/
def InvC (n : ℤ) (e : ExecC) : Prop :=
  e.sem.value + (e.granted : ℤ) = n + (e.released : ℤ)

/-- The FIFO invariant: the wake log followed by the current waiter queue is
exactly the arrival log. -/
def InvF (e : ExecF) : Prop :=
  e.wakes ++ e.sem.waiters = e.arrivals

/-- A JavaScript number, as far as the constructor observes one: NaN, the
two infinities, or a finite value (a rational; every finite double is one).
The constructor performs no arithmetic on its argument, only the strict
comparison with 0, so this carrier is exact for it. -/
inductive JSNum where
  | nan
  | posInf
  | negInf
  | val (q : ℚ)
  deriving Repr, DecidableEq

/-- The JavaScript < comparison on numbers: any comparison with NaN is
false; -Infinity is below everything else; Infinity is above everything
else; finite values compare as rationals. -/
def JSNum.lt : JSNum → JSNum → Bool
  | JSNum.nan, _ => false
  | _, JSNum.nan => false
  | JSNum.negInf, JSNum.negInf => false
  | JSNum.negInf, _ => true
  | _, JSNum.negInf => false
  | JSNum.posInf, _ => false
  | JSNum.val _, JSNum.posInf => true
  | JSNum.val a, JSNum.val b => decide (a < b)

/-- Semaphore state with the value field at its actual JavaScript type. -/
structure SemaphoreJS where
  value : JSNum
  waiters : List Nat
  deriving Repr, DecidableEq

/-- The constructor over actual JavaScript numbers: it throws exactly when
value < 0 evaluates to true, and otherwise stores value untouched, with no
integrality check. -/
def mkSemaphoreJS (value : JSNum) : Except String SemaphoreJS :=
  if value.lt (JSNum.val 0) then
    Except.error "Semaphore initial value must be >= 0"
  else
    Except.ok { value := value, waiters := [] }

/-! Helper lemmas shared by the claim theorems. -/

/-- locked is false exactly when the counter is nonzero and no one waits. -/
lemma locked_eq_false_iff {s : Semaphore} :
    s.locked = false ↔ (s.value ≠ 0 ∧ s.waiters = []) := by
  simp [Semaphore.locked, List.length_pos]

/-- locked is true exactly when the counter is zero or someone waits. -/
lemma locked_eq_true_iff {s : Semaphore} :
    s.locked = true ↔ (s.value = 0 ∨ s.waiters ≠ []) := by
  simp [Semaphore.locked, List.length_pos]

/-- acquire suspends exactly when locked reports true. -/
lemma acquire_snd {s : Semaphore} {w : Nat} : (s.acquire w).2 = s.locked := by
  rw [Semaphore.acquire]
  by_cases hl : s.locked <;> simp [hl]

/-- A successful construction yields a nonnegative count and the initial state. -/
lemma mkSemaphore_ok {n : ℤ} {s : Semaphore}
    (h : mkSemaphore n = Except.ok s) :
    0 ≤ n ∧ s = { value := n, waiters := [] } := by
  rw [mkSemaphore] at h
  split at h
  · exact absurd h (by simp)
  · exact ⟨by omega, by simpa using h.symm⟩

/-- acquire preserves the state invariant. -/
lemma acquire_inv {s : Semaphore} (h : Inv s) (w : Nat) : Inv (s.acquire w).1 := by
  obtain ⟨h1, h2⟩ := h
  by_cases hl : s.locked
  · have hv : s.value = 0 := by
      rcases locked_eq_true_iff.mp hl with hv | hw
      · exact hv
      · exact h2 hw
    simp [Inv, Semaphore.acquire, hl, h1, hv]
  · simp only [Bool.not_eq_true] at hl
    obtain ⟨hv, hw⟩ := locked_eq_false_iff.mp hl
    simp [Inv, Semaphore.acquire, hl, hw]
    omega

/-- release preserves the state invariant. -/
lemma release_inv {s : Semaphore} (h : Inv s) : Inv s.release.1 := by
  obtain ⟨h1, h2⟩ := h
  cases hws : s.waiters with
  | nil =>
      simp [Inv, Semaphore.release, Semaphore.wakeUpNext, hws]
      omega
  | cons nx rest =>
      have hv : s.value = 0 := h2 (by simp [hws])
      simp [Inv, Semaphore.release, Semaphore.wakeUpNext, hws, hv]

/-- One operation preserves the state invariant. -/
lemma applyOp_inv {s : Semaphore} (h : Inv s) (op : Op) : Inv (s.applyOp op) := by
  cases op with
  | acq w => exact acquire_inv h w
  | rel => exact release_inv h
  | lck => exact h
  | runf w =>
      simp only [Semaphore.applyOp]
      by_cases hs : (s.acquire w).2
      · simpa [hs] using acquire_inv h w
      · simp only [Bool.not_eq_true] at hs
        simp only [hs, Bool.false_eq_true, if_false]
        exact release_inv (acquire_inv h w)

/-- Shape of acquire on a locked semaphore: enqueue at the tail, suspend. -/
lemma acquire_fst_locked {s : Semaphore} {w : Nat} (hl : s.locked = true) :
    (s.acquire w).1 = { s with waiters := s.waiters ++ [w] } := by
  simp [Semaphore.acquire, hl]

/-- Shape of acquire on an unlocked semaphore: decrement, do not suspend. -/
lemma acquire_fst_unlocked {s : Semaphore} {w : Nat} (hl : s.locked = false) :
    (s.acquire w).1 = { s with value := s.value - 1 } := by
  simp [Semaphore.acquire, hl]

/-- Shape of release with no waiter: the counter goes up, nobody is woken. -/
lemma release_eq_nil {s : Semaphore} (hws : s.waiters = []) :
    s.release = ({ value := s.value + 1, waiters := [] }, none) := by
  simp [Semaphore.release, Semaphore.wakeUpNext, hws]

/-- Shape of release with a waiter: the head is removed and woken and the
counter is unchanged (incremented then immediately decremented). -/
lemma release_eq_cons {s : Semaphore} {nx : Nat} {rest : List Nat}
    (hws : s.waiters = nx :: rest) :
    s.release = ({ value := s.value, waiters := rest }, some nx) := by
  simp [Semaphore.release, Semaphore.wakeUpNext, hws]

/-- A trace of operations preserves the state invariant. -/
lemma execOps_inv {s : Semaphore} (h : Inv s) (ops : List Op) :
    Inv (s.execOps ops) := by
  induction ops generalizing s with
  | nil => simpa [Semaphore.execOps] using h
  | cons op rest ih =>
      rw [Semaphore.execOps]
      exact ih (applyOp_inv h op)

/-- One instrumented step preserves the conservation invariant. -/
lemma stepC_invC {n : ℤ} {e : ExecC} (h : InvC n e) (op : Op) :
    InvC n (stepC e op) := by
  cases op with
  | acq w =>
      by_cases hl : e.sem.locked
      · have hs : (e.sem.acquire w).2 = true := by rw [acquire_snd]; exact hl
        simp only [InvC, stepC, hs, acquire_fst_locked hl, if_true] at h ⊢
        omega
      · have hl' : e.sem.locked = false := by simpa using hl
        have hs : (e.sem.acquire w).2 = false := by rw [acquire_snd, hl']
        simp only [InvC, stepC, hs, acquire_fst_unlocked hl', Bool.false_eq_true,
          if_false] at h ⊢
        push_cast
        omega
  | rel =>
      cases hws : e.sem.waiters with
      | nil =>
          simp only [InvC, stepC, release_eq_nil hws, Option.isSome_none,
            Bool.false_eq_true, if_false] at h ⊢
          push_cast
          omega
      | cons nx rest =>
          simp only [InvC, stepC, release_eq_cons hws, Option.isSome_some,
            if_true] at h ⊢
          push_cast
          omega
  | lck => exact h
  | runf w =>
      by_cases hl : e.sem.locked
      · have hs : (e.sem.acquire w).2 = true := by rw [acquire_snd]; exact hl
        simp only [InvC, stepC, hs, acquire_fst_locked hl, if_true] at h ⊢
        omega
      · have hl' : e.sem.locked = false := by simpa using hl
        have hs : (e.sem.acquire w).2 = false := by rw [acquire_snd, hl']
        obtain ⟨hv, hw⟩ := locked_eq_false_iff.mp hl'
        have ha : (e.sem.acquire w).1 = { e.sem with value := e.sem.value - 1 } :=
          acquire_fst_unlocked hl'
        have hr := release_eq_nil (s := { e.sem with value := e.sem.value - 1 })
          (by simpa using hw)
        simp only [InvC, stepC, hs, Bool.false_eq_true, if_false, ha, hr] at h ⊢
        push_cast
        omega

/-- A whole instrumented trace preserves the conservation invariant. -/
lemma execC_invC {n : ℤ} {e : ExecC} (h : InvC n e) (ops : List Op) :
    InvC n (execC e ops) := by
  induction ops generalizing e with
  | nil => simpa [execC] using h
  | cons op rest ih =>
      rw [execC]
      exact ih (stepC_invC h op)

/-- One instrumented step preserves the FIFO invariant. -/
lemma stepF_invF {e : ExecF} (h : InvF e) (op : Op) : InvF (stepF e op) := by
  cases op with
  | acq w =>
      by_cases hl : e.sem.locked
      · have hs : (e.sem.acquire w).2 = true := by rw [acquire_snd]; exact hl
        simp only [InvF, stepF, hs, acquire_fst_locked hl, if_true] at h ⊢
        rw [← List.append_assoc, h]
      · have hl' : e.sem.locked = false := by simpa using hl
        have hs : (e.sem.acquire w).2 = false := by rw [acquire_snd, hl']
        simp only [InvF, stepF, hs, acquire_fst_unlocked hl', Bool.false_eq_true,
          if_false] at h ⊢
        exact h
  | rel =>
      cases hws : e.sem.waiters with
      | nil =>
          rw [InvF] at h
          rw [hws] at h
          simp only [InvF, stepF, release_eq_nil hws] at h ⊢
          simpa using h
      | cons nx rest =>
          rw [InvF] at h
          rw [hws] at h
          simp only [InvF, stepF, release_eq_cons hws] at h ⊢
          rw [List.append_assoc]
          simpa using h
  | lck => exact h
  | runf w =>
      by_cases hl : e.sem.locked
      · have hs : (e.sem.acquire w).2 = true := by rw [acquire_snd]; exact hl
        simp only [InvF, stepF, hs, acquire_fst_locked hl, if_true] at h ⊢
        rw [← List.append_assoc, h]
      · have hl' : e.sem.locked = false := by simpa using hl
        have hs : (e.sem.acquire w).2 = false := by rw [acquire_snd, hl']
        obtain ⟨hv, hw⟩ := locked_eq_false_iff.mp hl'
        have ha : (e.sem.acquire w).1 = { e.sem with value := e.sem.value - 1 } :=
          acquire_fst_unlocked hl'
        have hr := release_eq_nil (s := { e.sem with value := e.sem.value - 1 })
          (by simpa using hw)
        rw [InvF] at h
        rw [hw] at h
        simp only [InvF, stepF, hs, Bool.false_eq_true, if_false, ha, hr] at h ⊢
        simpa using h

/-- A whole instrumented trace preserves the FIFO invariant. -/
lemma execF_invF {e : ExecF} (h : InvF e) (ops : List Op) :
    InvF (execF e ops) := by
  induction ops generalizing e with
  | nil => simpa [execF] using h
  | cons op rest ih =>
      rw [execF]
      exact ih (stepF_invF h op)

/-- Taking the length of the left part of an append returns that part. -/
lemma take_length_append {α : Type} (l r : List α) : (l ++ r).take l.length = l := by
  induction l with
  | nil => simp
  | cons a t ih => simp [ih]

/-- The initial state of a successful construction satisfies the invariant. -/
lemma inv_init {n : ℤ} (hn : 0 ≤ n) : Inv { value := n, waiters := [] } :=
  ⟨hn, by simp⟩

/-! The claim theorems. -/

/-- C1: acquire is a two-branch protocol.  When locked() is false it
decrements permits by exactly one, leaves the waiter queue alone and returns
without suspending; when locked() is true it leaves permits alone, appends
the new resume handle at the tail of the waiters queue and suspends until a
future release invokes that handle (release alone then does the counter
bookkeeping, cf. the release theorem: the resumed path of acquire performs
no decrement, which is why the model needs no resume transformer at all). -/
theorem acquire_two_branch_protocol (s : Semaphore) (w : Nat) :
    (s.locked = false →
      s.acquire w = ({ value := s.value - 1, waiters := s.waiters }, false))
    ∧ (s.locked = true →
      s.acquire w = ({ value := s.value, waiters := s.waiters ++ [w] }, true)) := by
  constructor
  · intro h
    simp [Semaphore.acquire, h]
  · intro h
    simp [Semaphore.acquire, h]

/-- Witness for C1 at concrete inputs: an unlocked semaphore with two
permits grants at once, a locked one enqueues handle 7 and suspends. -/
theorem acquire_two_branch_protocol_witness :
    (Semaphore.mk 2 []).locked = false
    ∧ (Semaphore.mk 2 []).acquire 7 = ({ value := 1, waiters := [] }, false)
    ∧ (Semaphore.mk 0 []).locked = true
    ∧ (Semaphore.mk 0 []).acquire 7 = ({ value := 0, waiters := [7] }, true) := by
  refine ⟨by decide, ?_, by decide, ?_⟩
  · have h := (acquire_two_branch_protocol (Semaphore.mk 2 []) 7).1 (by decide)
    rw [h]
    decide
  · have h := (acquire_two_branch_protocol (Semaphore.mk 0 []) 7).2 (by decide)
    rw [h]
    decide

/-- C2: release increments permits by one and wakes at most one waiter.
With an empty queue the increment persists and nobody is resumed; with a
non-empty queue exactly the head is removed, permits is decremented again
(net change zero: the permit is handed to the woken waiter) and that head
handle is the one invoked.  The operation is a total function: it never
suspends and never fails, however many times it is called and whether or
not any acquire is outstanding. -/
theorem release_wakes_at_most_head (s : Semaphore) :
    (s.waiters = [] →
      s.release = ({ value := s.value + 1, waiters := [] }, none))
    ∧ (∀ nx rest, s.waiters = nx :: rest →
      s.release = ({ value := s.value, waiters := rest }, some nx)) :=
  ⟨fun h => release_eq_nil h, fun _ _ h => release_eq_cons h⟩

/-- Witness for C2 at concrete inputs: release on an empty queue only
increments; release with queued handles 5 and 6 wakes exactly 5. -/
theorem release_wakes_at_most_head_witness :
    (Semaphore.mk 3 []).release = ({ value := 4, waiters := [] }, none)
    ∧ (Semaphore.mk 0 [5, 6]).release = ({ value := 0, waiters := [6] }, some 5) := by
  refine ⟨?_, ?_⟩
  · have h := (release_wakes_at_most_head (Semaphore.mk 3 [])).1 rfl
    rw [h]
    decide
  · have h := (release_wakes_at_most_head (Semaphore.mk 0 [5, 6])).2 5 [6] rfl
    rw [h]

/-- C3: from any valid construction, after any trace of locked, acquire,
release and run operations the permit counter is nonnegative. -/
theorem value_nonneg_after_any_trace (n : ℤ) (s : Semaphore) (ops : List Op)
    (h : mkSemaphore n = Except.ok s) :
    0 ≤ (s.execOps ops).value := by
  obtain ⟨hn, hs⟩ := mkSemaphore_ok h
  subst hs
  exact (execOps_inv (inv_init hn) ops).1

/-- Witness for C3: a trace of five operations from a one-permit semaphore
leaves a nonnegative counter. -/
theorem value_nonneg_after_any_trace_witness :
    0 ≤ ((Semaphore.mk 1 []).execOps
      [Op.acq 0, Op.rel, Op.acq 1, Op.acq 2, Op.runf 3]).value :=
  value_nonneg_after_any_trace 1 (Semaphore.mk 1 [])
    [Op.acq 0, Op.rel, Op.acq 1, Op.acq 2, Op.runf 3] rfl

/-- C4: from any valid construction, at every operation boundary a
non-empty waiter queue forces a zero permit counter; consequently an
acquire that suspends does so only when the counter is zero — no acquirer
ever suspends while free capacity exists. -/
theorem waiters_nonempty_implies_no_permits (n : ℤ) (s : Semaphore)
    (ops : List Op) (h : mkSemaphore n = Except.ok s) :
    ((s.execOps ops).waiters ≠ [] → (s.execOps ops).value = 0)
    ∧ ∀ w : Nat, ((s.execOps ops).acquire w).2 = true →
        (s.execOps ops).value = 0 := by
  obtain ⟨hn, hs⟩ := mkSemaphore_ok h
  subst hs
  have hInv := execOps_inv (inv_init hn) ops
  refine ⟨hInv.2, ?_⟩
  intro w hw
  rw [acquire_snd] at hw
  rcases locked_eq_true_iff.mp hw with hv | hne
  · exact hv
  · exact hInv.2 hne

/-- Witness for C4: after two grants and one suspension on a two-permit
semaphore the queue is non-empty and the counter is zero. -/
theorem waiters_nonempty_implies_no_permits_witness :
    ((Semaphore.mk 2 []).execOps [Op.acq 0, Op.acq 1, Op.acq 2]).waiters ≠ []
    ∧ ((Semaphore.mk 2 []).execOps [Op.acq 0, Op.acq 1, Op.acq 2]).value = 0 :=
  ⟨by decide,
    (waiters_nonempty_implies_no_permits 2 (Semaphore.mk 2 [])
      [Op.acq 0, Op.acq 1, Op.acq 2] rfl).1 (by decide)⟩

/-- C5: waiters are resumed in exact arrival order.  Along any trace from a
valid construction, the log of woken handles followed by the still-queued
handles equals the log of suspended-arrival handles; in particular the wake
log is always the prefix of the arrival log of its length, so an acquirer A
that suspended strictly before B is granted strictly before B under any
interleaving of other operations. -/
theorem fifo_wake_order (n : ℤ) (s : Semaphore) (ops : List Op)
    (h : mkSemaphore n = Except.ok s) :
    (execF { sem := s, arrivals := [], wakes := [] } ops).wakes
        ++ (execF { sem := s, arrivals := [], wakes := [] } ops).sem.waiters
      = (execF { sem := s, arrivals := [], wakes := [] } ops).arrivals
    ∧ (execF { sem := s, arrivals := [], wakes := [] } ops).wakes
      = (execF { sem := s, arrivals := [], wakes := [] } ops).arrivals.take
          (execF { sem := s, arrivals := [], wakes := [] } ops).wakes.length := by
  obtain ⟨hn, hs⟩ := mkSemaphore_ok h
  have h0 : InvF { sem := s, arrivals := [], wakes := [] } := by
    subst hs
    simp [InvF]
  have hmain := execF_invF h0 ops
  rw [InvF] at hmain
  exact ⟨hmain, by rw [← hmain, take_length_append]⟩

/-- Witness for C5: handles 1 then 2 suspend on an empty semaphore; three
releases wake 1 before 2 and the logs match. -/
theorem fifo_wake_order_witness :
    (execF { sem := Semaphore.mk 0 [], arrivals := [], wakes := [] }
        [Op.acq 1, Op.acq 2, Op.rel, Op.rel, Op.rel]).wakes
        ++ (execF { sem := Semaphore.mk 0 [], arrivals := [], wakes := [] }
        [Op.acq 1, Op.acq 2, Op.rel, Op.rel, Op.rel]).sem.waiters
      = (execF { sem := Semaphore.mk 0 [], arrivals := [], wakes := [] }
        [Op.acq 1, Op.acq 2, Op.rel, Op.rel, Op.rel]).arrivals
    ∧ (execF { sem := Semaphore.mk 0 [], arrivals := [], wakes := [] }
        [Op.acq 1, Op.acq 2, Op.rel, Op.rel, Op.rel]).wakes
      = (execF { sem := Semaphore.mk 0 [], arrivals := [], wakes := [] }
        [Op.acq 1, Op.acq 2, Op.rel, Op.rel, Op.rel]).arrivals.take
          (execF { sem := Semaphore.mk 0 [], arrivals := [], wakes := [] }
        [Op.acq 1, Op.acq 2, Op.rel, Op.rel, Op.rel]).wakes.length :=
  fifo_wake_order 0 (Semaphore.mk 0 [])
    [Op.acq 1, Op.acq 2, Op.rel, Op.rel, Op.rel] rfl

/-- C6: locked() returns true exactly when the counter is zero or the
waiter queue is non-empty, which is exactly when an immediate acquire would
suspend (the suspension flag of acquire equals locked); and as a query it
leaves the state completely unchanged. -/
theorem locked_iff_would_suspend (s : Semaphore) (w : Nat) :
    (s.locked = true ↔ (s.value = 0 ∨ s.waiters ≠ []))
    ∧ (s.acquire w).2 = s.locked
    ∧ s.applyOp Op.lck = s :=
  ⟨locked_eq_true_iff, acquire_snd, rfl⟩

/-- C7: over the integers, construction fails (throws, producing no
instance) exactly when the initial value is negative, and for every
nonnegative initial value it returns a semaphore whose counter is that
value and whose waiter queue is empty. -/
theorem construction_protocol (n : ℤ) :
    ((∃ e, mkSemaphore n = Except.error e) ↔ n < 0)
    ∧ (0 ≤ n → mkSemaphore n = Except.ok { value := n, waiters := [] }) := by
  constructor
  · constructor
    · rintro ⟨e, he⟩
      by_contra hn
      rw [mkSemaphore, if_neg hn] at he
      simp at he
    · intro hn
      exact ⟨_, by rw [mkSemaphore, if_pos hn]⟩
  · intro hn
    rw [mkSemaphore, if_neg (by omega)]

/-- Witness for C7: construction with -1 fails, construction with 2
produces the two-permit semaphore with no waiters. -/
theorem construction_protocol_witness :
    (∃ e, mkSemaphore (-1) = Except.error e)
    ∧ mkSemaphore 2 = Except.ok { value := 2, waiters := [] } :=
  ⟨(construction_protocol (-1)).1.mpr (by norm_num),
    (construction_protocol 2).2 (by norm_num)⟩

/-- C8: run in isolation on an unlocked semaphore acquires, produces
exactly the outcome of the wrapped task — the result unchanged on success,
the same failure on failure — and the finally-guarded release has already
run, returning the semaphore to exactly its pre-call state. -/
theorem run_scoped_release {Err A : Type} (s : Semaphore) (w : Nat)
    (task : Except Err A) (h : s.locked = false) :
    s.run w task = some (s, task) := by
  obtain ⟨v, ws⟩ := s
  obtain ⟨hv, hw⟩ := locked_eq_false_iff.mp h
  simp only at hv hw
  subst hw
  have hs : ((Semaphore.mk v []).acquire w).2 = false := by rw [acquire_snd, h]
  have ha : ((Semaphore.mk v []).acquire w).1 = Semaphore.mk (v - 1) [] :=
    acquire_fst_unlocked h
  have hr := release_eq_nil (s := Semaphore.mk (v - 1) []) rfl
  rw [Semaphore.run]
  simp only [hs, Bool.false_eq_true, if_false, ha, hr]
  simp [Semaphore.mk.injEq]

/-- Witness for C8: run of a failing task on a one-permit semaphore
propagates the failure and restores the state. -/
theorem run_scoped_release_witness :
    (Semaphore.mk 1 []).run 4 (Except.error "boom" : Except String Nat)
      = some (Semaphore.mk 1 [], Except.error "boom") :=
  run_scoped_release (Semaphore.mk 1 []) 4 (Except.error "boom") (by decide)

/-- C9: conservation.  From a valid construction with initial count n,
after any trace in which every granted acquire has been matched by a
release (zero outstanding grants) and the waiter queue is empty, the
counter equals n again. -/
theorem conservation_after_balanced_trace (n : ℤ) (s : Semaphore)
    (ops : List Op) (h : mkSemaphore n = Except.ok s)
    (hbal : (execC { sem := s, granted := 0, released := 0 } ops).granted
      = (execC { sem := s, granted := 0, released := 0 } ops).released)
    (hq : (execC { sem := s, granted := 0, released := 0 } ops).sem.waiters = []) :
    (execC { sem := s, granted := 0, released := 0 } ops).sem.value = n := by
  obtain ⟨hn, hs⟩ := mkSemaphore_ok h
  have h0 : InvC n { sem := s, granted := 0, released := 0 } := by
    subst hs
    simp [InvC]
  have hfin := execC_invC h0 ops
  rw [InvC] at hfin
  omega

/-- Witness for C9: one acquire, one release and one complete run on a
one-permit semaphore leave the counter at its initial value 1. -/
theorem conservation_after_balanced_trace_witness :
    (execC { sem := Semaphore.mk 1 [], granted := 0, released := 0 }
      [Op.acq 0, Op.rel, Op.runf 1]).sem.value = 1 :=
  conservation_after_balanced_trace 1 (Semaphore.mk 1 [])
    [Op.acq 0, Op.rel, Op.runf 1] rfl (by decide) (by decide)

/-- C10: the constructor checks only the JavaScript comparison value < 0
and no integrality: every number not comparing below zero — including the
non-integer 0.5 and NaN, whose comparison with 0 is false — is accepted
and stored untouched in the permits field, while exactly the numbers
strictly comparing below zero are rejected. -/
theorem construction_accepts_noninteger_and_nan (x : JSNum) :
    (JSNum.lt x (JSNum.val 0) = false →
      mkSemaphoreJS x = Except.ok { value := x, waiters := [] })
    ∧ (JSNum.lt x (JSNum.val 0) = true →
      ∃ e, mkSemaphoreJS x = Except.error e)
    ∧ JSNum.lt JSNum.nan (JSNum.val 0) = false
    ∧ mkSemaphoreJS (JSNum.val (1 / 2))
      = Except.ok { value := JSNum.val (1 / 2), waiters := [] }
    ∧ mkSemaphoreJS JSNum.nan
      = Except.ok { value := JSNum.nan, waiters := [] } := by
  refine ⟨?_, ?_, rfl, ?_, rfl⟩
  · intro h
    simp [mkSemaphoreJS, h]
  · intro h
    exact ⟨"Semaphore initial value must be >= 0", by simp [mkSemaphoreJS, h]⟩
  · norm_num [mkSemaphoreJS, JSNum.lt]

/-- Witness for C10: the finite value 3 is accepted and -1 is rejected via
the general branches of the theorem. -/
theorem construction_accepts_noninteger_and_nan_witness :
    mkSemaphoreJS (JSNum.val 3)
      = Except.ok { value := JSNum.val 3, waiters := [] }
    ∧ ∃ e, mkSemaphoreJS (JSNum.val (-1)) = Except.error e :=
  ⟨(construction_accepts_noninteger_and_nan (JSNum.val 3)).1
      (by norm_num [JSNum.lt]),
    (construction_accepts_noninteger_and_nan (JSNum.val (-1))).2.1
      (by norm_num [JSNum.lt])⟩

end TsSemaphore
